import Mathlib

/-!
Verification of the pykern `OrderedMapping` core and the `rsmanifest.read_all`
manifest merge.

The repository ships the test suite `tests/pkcollections_test.py` for the
`OrderedMapping` container, but the module `pykern/pkcollections.py` itself is
not among the sources; the container and `mapping_merge` are therefore
modelled from the specification (each such definition says so in its doc
comment).  `pykern/pkcli/rsmanifest.py` is among the sources and `read_all`
is embedded from it directly.

Entries of an `OrderedMapping` are kept as an association list
`List (String × α)` in iteration order; Python's raised exceptions become
`Except PkError` results.
-/

/-- Modelled from the spec: the error taxonomy of `pykern.pkcollections`,
which is missing from the sources.  Attribute-style access surfaces the
missing-key condition as `attributeError`, subscript-style access as
`keyError`; invalid construction surfaces as `assertionError` (two bare
positional arguments) or `typeError` (a single non-mapping iterable). -/
inductive PkError where
  | attributeError
  | keyError
  | assertionError
  | typeError
deriving DecidableEq

/-- Modelled from the spec: the `OrderedMapping` container of
`pykern.pkcollections` (the module is missing from the sources).  `tname` is
the concrete runtime type name (used by equality to discriminate subclasses),
`entries` the ordered key/value store, in iteration order. -/
structure OrderedMapping (α : Type) where
  tname : String
  entries : List (String × α)
deriving DecidableEq

/-- Modelled from the spec: an empty instance of the concrete type `t`. -/
def OrderedMapping.empty (α : Type) (t : String) : OrderedMapping α :=
  ⟨t, []⟩

/-- Modelled from the spec: iterating an instance yields its keys in
insertion order. -/
def OrderedMapping.iterKeys {α : Type} (m : OrderedMapping α) : List String :=
  m.entries.map Prod.fst

/-- Modelled from the spec: whether key `k` is present. -/
def OrderedMapping.hasKey {α : Type} (m : OrderedMapping α) (k : String) : Bool :=
  m.entries.any (fun e => e.1 == k)

/-- Modelled from the spec: the stored value of key `k`, if present. -/
def OrderedMapping.lookupCore {α : Type} (m : OrderedMapping α) (k : String) : Option α :=
  (m.entries.find? (fun e => e.1 == k)).map Prod.snd

/-- Modelled from the spec: set operation shared by attribute-set and
subscript-set — overwrite the value in place when `k` is present (no order
change), append the new entry at the end when it is absent. -/
def OrderedMapping.setItem {α : Type} (m : OrderedMapping α) (k : String) (v : α) : OrderedMapping α :=
  if m.hasKey k then
    { m with entries := m.entries.map (fun e => if e.1 == k then (k, v) else e) }
  else
    { m with entries := m.entries ++ [(k, v)] }

/-- Modelled from the spec: attribute-style set delegates to the same
internal store operation as subscript-style set. -/
def OrderedMapping.setAttr {α : Type} (m : OrderedMapping α) (k : String) (v : α) : OrderedMapping α :=
  m.setItem k v

/-- Modelled from the spec: removal of an entry from the ordered store. -/
def OrderedMapping.delCore {α : Type} (m : OrderedMapping α) (k : String) : OrderedMapping α :=
  { m with entries := m.entries.filter (fun e => e.1 != k) }

/-- Modelled from the spec: attribute-style delete; a missing key raises the
attribute-not-found manifestation of the missing-key condition. -/
def OrderedMapping.delAttr {α : Type} (m : OrderedMapping α) (k : String) : Except PkError (OrderedMapping α) :=
  if m.hasKey k then .ok (m.delCore k) else .error .attributeError

/-- Modelled from the spec: subscript-style delete; a missing key raises the
key-not-found manifestation of the missing-key condition. -/
def OrderedMapping.delItem {α : Type} (m : OrderedMapping α) (k : String) : Except PkError (OrderedMapping α) :=
  if m.hasKey k then .ok (m.delCore k) else .error .keyError

/-- Modelled from the spec: attribute-style get; a missing key raises the
attribute-not-found manifestation, never a silent default. -/
def OrderedMapping.getAttr {α : Type} (m : OrderedMapping α) (k : String) : Except PkError α :=
  match m.lookupCore k with
  | some v => .ok v
  | none => .error .attributeError

/-- Modelled from the spec: subscript-style get; a missing key raises the
key-not-found manifestation, never a silent default. -/
def OrderedMapping.getItem {α : Type} (m : OrderedMapping α) (k : String) : Except PkError α :=
  match m.lookupCore k with
  | some v => .ok v
  | none => .error .keyError

/-- Modelled from the spec: repeated set operations, in list order (used by
construction from kwargs or a mapping, and by `mapping_merge`). -/
def OrderedMapping.insertAll {α : Type} (m : OrderedMapping α) (l : List (String × α)) : OrderedMapping α :=
  l.foldl (fun acc e => acc.setItem e.1 e.2) m

/-- Modelled from the spec: the shapes a positional construction argument
can take — a mapping-like object, a non-mapping sequence, or a bare scalar. -/
inductive InitArg (α : Type) where
  | mappingArg (m : OrderedMapping α)
  | seqArg (l : List String)
  | scalarArg (s : String)

/-- Modelled from the spec: construction of the concrete type `t`.  No
positional argument builds from the keyword arguments in supplied order; a
single mapping-like argument copies its pairs in that mapping's own order;
a single non-mapping positional argument is a type error; any other number
of positional arguments violates the construction contract (assertion). -/
def OrderedMapping.init {α : Type} (t : String) (args : List (InitArg α)) (kwargs : List (String × α)) : Except PkError (OrderedMapping α) :=
  match args with
  | [] => .ok ((OrderedMapping.empty α t).insertAll kwargs)
  | [.mappingArg src] => .ok ((OrderedMapping.empty α t).insertAll src.entries)
  | [.seqArg _] => .error .typeError
  | [.scalarArg _] => .error .typeError
  | _ => .error .assertionError

/-- Modelled from the spec: equality of two instances — same concrete
runtime type, and entrywise the same keys, values and order. -/
def OrderedMapping.beq {α : Type} [DecidableEq α] (a b : OrderedMapping α) : Bool :=
  decide (a.tname = b.tname) && decide (a.entries = b.entries)

/-- Modelled from the spec: equality against a possibly-absent other
operand; comparison with `none` (Python `None`) is false. -/
def OrderedMapping.beqOpt {α : Type} [DecidableEq α] (a : OrderedMapping α) : Option (OrderedMapping α) → Bool
  | none => false
  | some b => a.beq b

/-- Modelled from the spec: inequality is the logical negation of
equality. -/
def OrderedMapping.bneOpt {α : Type} [DecidableEq α] (a : OrderedMapping α) (b : Option (OrderedMapping α)) : Bool :=
  !(a.beqOpt b)

/-- Modelled from the spec: the deterministic string representation
`TypeName(key1=value1, key2=value2, ...)` with the pairs in iteration order
and comma-space separators. -/
def OrderedMapping.reprStr {α : Type} [ToString α] (m : OrderedMapping α) : String :=
  m.tname ++ "(" ++ String.intercalate ", " (m.entries.map (fun e => e.1 ++ "=" ++ toString e.2)) ++ ")"

/-- Modelled from the spec: `pkcollections.mapping_merge(target, source)` —
for each key of the source, in the source's own iteration order, perform the
set operation on the target. -/
def mapping_merge {α : Type} (target : OrderedMapping α) (source : List (String × α)) : OrderedMapping α :=
  target.insertAll source

/-- A manifest as loaded by `pykern.pkcli.rsmanifest.read_all`: its
`version` field and the remaining key/value data. -/
structure Manifest where
  version : String
  codes : List (String × String)
deriving DecidableEq

/-- Python `dict` assignment `d[k] = v`: overwrite in place when present,
append when absent (insertion-order-preserving dictionaries). -/
def assocSet (l : List (String × String)) (k v : String) : List (String × String) :=
  if l.any (fun e => e.1 == k) then l.map (fun e => if e.1 == k then (k, v) else e)
  else l ++ [(k, v)]

/-- Python `c.update(u)`: for each key of `u`, set it in `c`. -/
def dictUpdate (c u : List (String × String)) : List (String × String) :=
  u.foldl (fun acc e => assocSet acc e.1 e.2) c

/-- `rsmanifest.read_all`, embedded from `pykern/pkcli/rsmanifest.py`: given
the loaded user and container manifests, assert that their versions agree,
then merge with the user data overriding the container data. -/
def read_all (u c : Manifest) : Except String Manifest :=
  if u.version = c.version then
    .ok { version := c.version, codes := dictUpdate c.codes u.codes }
  else
    .error ("(user.version) " ++ u.version ++ " != " ++ c.version ++ " (container.version)")

theorem fst_replace {α : Type} (k : String) (v : α) (e : String × α) :
    (if e.1 == k then (k, v) else e).1 = e.1 := by
  by_cases h : e.1 = k <;> simp [h]

theorem OrderedMapping.hasKey_iff {α : Type} (m : OrderedMapping α) (k : String) :
    m.hasKey k = true ↔ k ∈ m.iterKeys := by
  simp [OrderedMapping.hasKey, OrderedMapping.iterKeys, List.any_eq_true, List.mem_map]

theorem OrderedMapping.lookupCore_eq_none {α : Type} (m : OrderedMapping α) (k : String) :
    m.lookupCore k = none ↔ m.hasKey k = false := by
  simp [OrderedMapping.lookupCore, OrderedMapping.hasKey, List.find?_eq_none]

theorem OrderedMapping.tname_setItem {α : Type} (m : OrderedMapping α) (k : String) (v : α) :
    (m.setItem k v).tname = m.tname := by
  unfold OrderedMapping.setItem
  split <;> rfl

theorem OrderedMapping.entries_setItem_of_not_mem {α : Type} (m : OrderedMapping α)
    (k : String) (v : α) (h : m.hasKey k = false) :
    (m.setItem k v).entries = m.entries ++ [(k, v)] := by
  simp [OrderedMapping.setItem, h]

theorem OrderedMapping.iterKeys_setItem_of_mem {α : Type} (m : OrderedMapping α)
    (k : String) (v : α) (h : m.hasKey k = true) :
    (m.setItem k v).iterKeys = m.iterKeys := by
  simp only [OrderedMapping.setItem, h, if_true, OrderedMapping.iterKeys, List.map_map]
  exact List.map_congr_left (fun e _ => fst_replace k v e)

theorem OrderedMapping.iterKeys_setItem_of_not_mem {α : Type} (m : OrderedMapping α)
    (k : String) (v : α) (h : m.hasKey k = false) :
    (m.setItem k v).iterKeys = m.iterKeys ++ [k] := by
  simp [OrderedMapping.setItem, h, OrderedMapping.iterKeys]

theorem OrderedMapping.hasKey_setItem {α : Type} (m : OrderedMapping α) (k k' : String) (v : α) :
    ((m.setItem k v).hasKey k' = true) ↔ (m.hasKey k' = true ∨ k' = k) := by
  by_cases h : m.hasKey k
  · rw [OrderedMapping.hasKey_iff, OrderedMapping.iterKeys_setItem_of_mem m k v h,
      ← OrderedMapping.hasKey_iff]
    constructor
    · exact Or.inl
    · rintro (hx | rfl)
      · exact hx
      · exact h
  · rw [OrderedMapping.hasKey_iff, OrderedMapping.iterKeys_setItem_of_not_mem m k v (by simpa using h),
      List.mem_append, ← OrderedMapping.hasKey_iff]
    simp

theorem OrderedMapping.nodup_setItem {α : Type} (m : OrderedMapping α) (k : String) (v : α)
    (h : m.iterKeys.Nodup) : (m.setItem k v).iterKeys.Nodup := by
  by_cases hk : m.hasKey k
  · rw [OrderedMapping.iterKeys_setItem_of_mem m k v hk]
    exact h
  · rw [OrderedMapping.iterKeys_setItem_of_not_mem m k v (by simpa using hk)]
    have hnm : k ∉ m.iterKeys := by
      rw [← OrderedMapping.hasKey_iff]
      simpa using hk
    simp [List.nodup_append, h, hnm]

theorem find?_replace_self {α : Type} (l : List (String × α)) (k : String) (v : α)
    (h : l.any (fun e => e.1 == k) = true) :
    (l.map (fun e => if e.1 == k then (k, v) else e)).find? (fun e => e.1 == k) = some (k, v) := by
  induction l with
  | nil => simp at h
  | cons e t ih =>
    rw [List.map_cons]
    by_cases he : e.1 = k
    · rw [if_pos (by simpa using he)]
      exact List.find?_cons_of_pos _ (by simp)
    · rw [if_neg (by simpa using he)]
      rw [List.find?_cons_of_neg _ (by simpa using he)]
      have hpe : (e.1 == k) = false := beq_eq_false_iff_ne.mpr he
      rw [List.any_cons, hpe, Bool.false_or] at h
      exact ih h

theorem find?_replace_other {α : Type} (l : List (String × α)) (k k' : String) (v : α)
    (hne : k' ≠ k) :
    (l.map (fun e => if e.1 == k then (k, v) else e)).find? (fun e => e.1 == k')
      = l.find? (fun e => e.1 == k') := by
  induction l with
  | nil => simp
  | cons e t ih =>
    rw [List.map_cons]
    by_cases he : e.1 = k
    · have h1 : ¬(k = k') := fun h => hne h.symm
      have h2 : ¬(e.1 = k') := by
        rw [he]
        exact h1
      rw [if_pos (by simpa using he)]
      rw [List.find?_cons_of_neg _ (by simpa using h1), List.find?_cons_of_neg _ (by simpa using h2)]
      exact ih
    · rw [if_neg (by simpa using he)]
      by_cases he' : e.1 = k'
      · rw [List.find?_cons_of_pos _ (by simpa using he'), List.find?_cons_of_pos _ (by simpa using he')]
      · rw [List.find?_cons_of_neg _ (by simpa using he'), List.find?_cons_of_neg _ (by simpa using he')]
        exact ih

theorem OrderedMapping.lookupCore_setItem {α : Type} (m : OrderedMapping α) (k k' : String)
    (v : α) :
    (m.setItem k v).lookupCore k' = if k' = k then some v else m.lookupCore k' := by
  by_cases hk : m.hasKey k
  · have hent : (m.setItem k v).entries
        = m.entries.map (fun e => if e.1 == k then (k, v) else e) := by
      simp [OrderedMapping.setItem, hk]
    by_cases h : k' = k
    · subst h
      rw [OrderedMapping.lookupCore, hent, find?_replace_self m.entries k' v hk, if_pos rfl]
      rfl
    · rw [OrderedMapping.lookupCore, hent, find?_replace_other m.entries k k' v h, if_neg h]
      rfl
  · have hk2 : m.hasKey k = false := by simpa using hk
    have hent : (m.setItem k v).entries = m.entries ++ [(k, v)] := by
      simp [OrderedMapping.setItem, hk2]
    by_cases h : k' = k
    · subst h
      have hnone : m.entries.find? (fun e => e.1 == k') = none := by
        rw [List.find?_eq_none]
        intro e he hpe
        have hmem : m.hasKey k' = true := by
          rw [OrderedMapping.hasKey, List.any_eq_true]
          exact ⟨e, he, hpe⟩
        rw [hk2] at hmem
        exact Bool.false_ne_true hmem
      rw [OrderedMapping.lookupCore, hent, List.find?_append, hnone, if_pos rfl]
      simp
    · have hneg : ¬(((k, v).1 == k') = true) := by
        simp only [beq_iff_eq]
        exact fun hh => h hh.symm
      have hsingle : List.find? (fun e => e.1 == k') [(k, v)] = none := by
        rw [List.find?_eq_none]
        intro x hx
        rw [List.mem_singleton] at hx
        subst hx
        exact hneg
      rw [OrderedMapping.lookupCore, hent, List.find?_append, hsingle, if_neg h]
      simp [OrderedMapping.lookupCore]

theorem OrderedMapping.tname_delCore {α : Type} (m : OrderedMapping α) (k : String) :
    (m.delCore k).tname = m.tname := rfl

theorem OrderedMapping.iterKeys_delCore {α : Type} (m : OrderedMapping α) (k : String) :
    (m.delCore k).iterKeys = m.iterKeys.filter (fun x => x != k) := by
  simp only [OrderedMapping.delCore, OrderedMapping.iterKeys]
  induction m.entries with
  | nil => rfl
  | cons e t ih =>
    by_cases he : e.1 = k <;> simp [List.filter_cons, he, ih]

theorem OrderedMapping.hasKey_delCore_self {α : Type} (m : OrderedMapping α) (k : String) :
    (m.delCore k).hasKey k = false := by
  simp [OrderedMapping.delCore, OrderedMapping.hasKey, List.any_eq_true, List.mem_filter]

theorem OrderedMapping.iterKeys_delCore_of_nodup {α : Type} (m : OrderedMapping α) (k : String)
    (h : m.iterKeys.Nodup) :
    (m.delCore k).iterKeys = m.iterKeys.erase k := by
  rw [OrderedMapping.iterKeys_delCore, List.Nodup.erase_eq_filter h]

theorem OrderedMapping.insertAll_cons {α : Type} (m : OrderedMapping α) (e : String × α)
    (t : List (String × α)) :
    m.insertAll (e :: t) = (m.setItem e.1 e.2).insertAll t := rfl

theorem OrderedMapping.tname_insertAll {α : Type} (l : List (String × α)) (m : OrderedMapping α) :
    (m.insertAll l).tname = m.tname := by
  induction l generalizing m with
  | nil => rfl
  | cons e t ih => rw [OrderedMapping.insertAll_cons, ih, OrderedMapping.tname_setItem]

theorem OrderedMapping.hasKey_setItem_eq_false {α : Type} (m : OrderedMapping α)
    (k k' : String) (v : α) (h1 : m.hasKey k' = false) (h2 : k' ≠ k) :
    (m.setItem k v).hasKey k' = false := by
  cases hb : (m.setItem k v).hasKey k'
  · rfl
  · rcases (OrderedMapping.hasKey_setItem m k k' v).mp hb with hx | hx
    · rw [h1] at hx
      exact absurd hx Bool.false_ne_true
    · exact absurd hx h2

theorem OrderedMapping.hasKey_setItem_of_ne {α : Type} (m : OrderedMapping α)
    (k x : String) (v : α) (hne : x ≠ k) :
    (m.setItem k v).hasKey x = m.hasKey x := by
  cases hb : m.hasKey x
  · exact OrderedMapping.hasKey_setItem_eq_false m k x v hb hne
  · exact (OrderedMapping.hasKey_setItem m k x v).mpr (Or.inl hb)

theorem OrderedMapping.entries_insertAll_fresh {α : Type} (l : List (String × α))
    (m : OrderedMapping α) (hn : (l.map Prod.fst).Nodup)
    (hf : ∀ p ∈ l, m.hasKey p.1 = false) :
    (m.insertAll l).entries = m.entries ++ l := by
  induction l generalizing m with
  | nil => simp [OrderedMapping.insertAll]
  | cons e t ih =>
    have hcons : e.1 ∉ t.map Prod.fst ∧ (t.map Prod.fst).Nodup := List.nodup_cons.mp hn
    have h1 : m.hasKey e.1 = false := hf e (List.mem_cons_self e t)
    have hf' : ∀ p ∈ t, (m.setItem e.1 e.2).hasKey p.1 = false := by
      intro p hp
      have hne : p.1 ≠ e.1 := by
        intro hh
        exact hcons.1 (hh ▸ List.mem_map_of_mem Prod.fst hp)
      exact OrderedMapping.hasKey_setItem_eq_false m e.1 p.1 e.2
        (hf p (List.mem_cons_of_mem e hp)) hne
    rw [OrderedMapping.insertAll_cons, ih _ hcons.2 hf',
      OrderedMapping.entries_setItem_of_not_mem m e.1 e.2 h1]
    simp

theorem OrderedMapping.iterKeys_insertAll_fresh {α : Type} (l : List (String × α))
    (m : OrderedMapping α) (hn : (l.map Prod.fst).Nodup)
    (hf : ∀ p ∈ l, m.hasKey p.1 = false) :
    (m.insertAll l).iterKeys = m.iterKeys ++ l.map Prod.fst := by
  rw [OrderedMapping.iterKeys, OrderedMapping.entries_insertAll_fresh l m hn hf, List.map_append]
  rfl

theorem OrderedMapping.nodup_insertAll {α : Type} (l : List (String × α))
    (m : OrderedMapping α) (h : m.iterKeys.Nodup) : (m.insertAll l).iterKeys.Nodup := by
  induction l generalizing m with
  | nil => exact h
  | cons e t ih => exact ih _ (OrderedMapping.nodup_setItem m e.1 e.2 h)

theorem lookupCore_mapping_merge_not_mem {α : Type} (src : List (String × α))
    (t : OrderedMapping α) (k : String) (hk : k ∉ src.map Prod.fst) :
    (mapping_merge t src).lookupCore k = t.lookupCore k := by
  induction src generalizing t with
  | nil => rfl
  | cons e rest ih =>
    have hk1 : k ≠ e.1 := by
      intro hh
      exact hk (hh ▸ List.mem_cons_self e.1 (rest.map Prod.fst))
    have hk2 : k ∉ rest.map Prod.fst := fun hh => hk (List.mem_cons_of_mem e.1 hh)
    have hstep : mapping_merge t (e :: rest) = mapping_merge (t.setItem e.1 e.2) rest := rfl
    rw [hstep, ih _ hk2, OrderedMapping.lookupCore_setItem, if_neg hk1]

theorem lookupCore_mapping_merge_mem {α : Type} (src : List (String × α))
    (t : OrderedMapping α) (k : String) (v : α) (hs : (src.map Prod.fst).Nodup)
    (hmem : (k, v) ∈ src) :
    (mapping_merge t src).lookupCore k = some v := by
  induction src generalizing t with
  | nil => cases hmem
  | cons e rest ih =>
    have hcons : e.1 ∉ rest.map Prod.fst ∧ (rest.map Prod.fst).Nodup := List.nodup_cons.mp hs
    have hstep : mapping_merge t (e :: rest) = mapping_merge (t.setItem e.1 e.2) rest := rfl
    rcases List.mem_cons.mp hmem with heq | hm
    · have hk : k ∉ rest.map Prod.fst := by
        have h1 : e.1 = k := by rw [← heq]
        exact h1 ▸ hcons.1
      rw [hstep, lookupCore_mapping_merge_not_mem rest _ k hk, ← heq,
        OrderedMapping.lookupCore_setItem, if_pos rfl]
    · rw [hstep]
      exact ih _ hcons.2 hm

theorem iterKeys_mapping_merge {α : Type} (src : List (String × α)) (t : OrderedMapping α)
    (hs : (src.map Prod.fst).Nodup) :
    (mapping_merge t src).iterKeys
      = t.iterKeys ++ (src.map Prod.fst).filter (fun k => !(t.hasKey k)) := by
  induction src generalizing t with
  | nil => simp [mapping_merge, OrderedMapping.insertAll]
  | cons e rest ih =>
    have hcons : e.1 ∉ rest.map Prod.fst ∧ (rest.map Prod.fst).Nodup := List.nodup_cons.mp hs
    have hstep : mapping_merge t (e :: rest) = mapping_merge (t.setItem e.1 e.2) rest := rfl
    rw [hstep, ih _ hcons.2]
    have hfilter : (rest.map Prod.fst).filter (fun k => !((t.setItem e.1 e.2).hasKey k))
        = (rest.map Prod.fst).filter (fun k => !(t.hasKey k)) := by
      apply List.filter_congr
      intro x hx
      have hne : x ≠ e.1 := fun hh => hcons.1 (hh ▸ hx)
      rw [OrderedMapping.hasKey_setItem_of_ne t e.1 x e.2 hne]
    rw [hfilter]
    by_cases hk : t.hasKey e.1
    · rw [OrderedMapping.iterKeys_setItem_of_mem t e.1 e.2 hk, List.map_cons, List.filter_cons]
      simp [hk]
    · have hk2 : t.hasKey e.1 = false := by simpa using hk
      rw [OrderedMapping.iterKeys_setItem_of_not_mem t e.1 e.2 hk2, List.map_cons,
        List.filter_cons]
      simp [hk2, List.append_assoc]

theorem find?_key_eq_of_lookup_eq {α : Type} (a b : List (String × α)) (k : String)
    (h : (a.find? (fun e => e.1 == k)).map Prod.snd
      = (b.find? (fun e => e.1 == k)).map Prod.snd) :
    a.find? (fun e => e.1 == k) = b.find? (fun e => e.1 == k) := by
  cases ha : a.find? (fun e => e.1 == k) with
  | none =>
    cases hb : b.find? (fun e => e.1 == k) with
    | none => rfl
    | some y =>
      rw [ha, hb] at h
      simp at h
  | some x =>
    cases hb : b.find? (fun e => e.1 == k) with
    | none =>
      rw [ha, hb] at h
      simp at h
    | some y =>
      rw [ha, hb] at h
      simp at h
      have hx := List.find?_some ha
      have hy := List.find?_some hb
      simp only [beq_iff_eq] at hx hy
      have hxy : x = y := Prod.ext_iff.mpr ⟨by rw [hx, hy], h⟩
      rw [hxy]

theorem assoc_ext {α : Type} (a : List (String × α)) :
    ∀ b : List (String × α), (a.map Prod.fst).Nodup → (b.map Prod.fst).Nodup →
    a.map Prod.fst = b.map Prod.fst →
    (∀ k, a.find? (fun e => e.1 == k) = b.find? (fun e => e.1 == k)) → a = b := by
  induction a with
  | nil =>
    intro b _ _ hk _
    cases b with
    | nil => rfl
    | cons e2 t2 => simp at hk
  | cons e t ih =>
    intro b hna hnb hk hv
    cases b with
    | nil => simp at hk
    | cons e2 t2 =>
      rw [List.map_cons, List.map_cons] at hk
      injection hk with hk1 hk2
      have hconsa : e.1 ∉ t.map Prod.fst ∧ (t.map Prod.fst).Nodup := List.nodup_cons.mp hna
      have hconsb : e2.1 ∉ t2.map Prod.fst ∧ (t2.map Prod.fst).Nodup := List.nodup_cons.mp hnb
      have hfa : (e :: t).find? (fun x => x.1 == e.1) = some e :=
        List.find?_cons_of_pos _ (by simp)
      have hfb : (e2 :: t2).find? (fun x => x.1 == e.1) = some e2 :=
        List.find?_cons_of_pos _ (by rw [beq_iff_eq]; exact hk1.symm)
      have hheads : e = e2 := by
        have h1 := hv e.1
        rw [hfa, hfb] at h1
        injection h1
      have htails : ∀ k, t.find? (fun x => x.1 == k) = t2.find? (fun x => x.1 == k) := by
        intro k
        by_cases hke : k = e.1
        · have h1 : t.find? (fun x => x.1 == k) = none := by
            rw [List.find?_eq_none]
            intro x hx hpx
            rw [beq_iff_eq] at hpx
            refine hconsa.1 ?_
            rw [← hke, ← hpx]
            exact List.mem_map_of_mem Prod.fst hx
          have h2 : t2.find? (fun x => x.1 == k) = none := by
            rw [List.find?_eq_none]
            intro x hx hpx
            rw [beq_iff_eq] at hpx
            refine hconsb.1 ?_
            rw [← hk1, ← hke, ← hpx]
            exact List.mem_map_of_mem Prod.fst hx
          rw [h1, h2]
        · have h1 := hv k
          have hne1 : ¬((e.1 == k) = true) := by
            rw [beq_iff_eq]
            exact fun hh => hke hh.symm
          have hne2 : ¬((e2.1 == k) = true) := by
            rw [beq_iff_eq, ← hk1]
            exact fun hh => hke hh.symm
          have ha2 : (e :: t).find? (fun x => x.1 == k) = t.find? (fun x => x.1 == k) :=
            List.find?_cons_of_neg _ hne1
          have hb2 : (e2 :: t2).find? (fun x => x.1 == k) = t2.find? (fun x => x.1 == k) :=
            List.find?_cons_of_neg _ hne2
          rw [ha2, hb2] at h1
          exact h1
      rw [hheads, ih t2 hconsa.2 hconsb.2 hk2 htails]

theorem OrderedMapping.hasKey_of_lookup_some {α : Type} (m : OrderedMapping α) (k : String)
    (v : α) (h : m.lookupCore k = some v) : m.hasKey k = true := by
  cases hb : m.hasKey k
  · rw [(OrderedMapping.lookupCore_eq_none m k).mpr hb] at h
    cases h
  · rfl

/-- Claim C1: building an instance by any sequence of fresh insertions of
distinct keys (attribute-set and subscript-set are the same store operation)
yields iteration in exactly insertion order, and every further fresh
insertion appends its key at the end, so a fresh iteration always reflects
the current order. -/
theorem orderedMapping_insertion_order {α : Type} (l : List (String × α))
    (h : (l.map Prod.fst).Nodup) :
    ((OrderedMapping.empty α "OrderedMapping").insertAll l).iterKeys = l.map Prod.fst ∧
    (∀ (m : OrderedMapping α) (k : String) (v : α), m.hasKey k = false →
      (m.setAttr k v).iterKeys = m.iterKeys ++ [k] ∧
      (m.setItem k v).iterKeys = m.iterKeys ++ [k]) := by
  constructor
  · rw [OrderedMapping.iterKeys_insertAll_fresh l (OrderedMapping.empty α "OrderedMapping") h
      (fun p _ => rfl)]
    rfl
  · intro m k v hk
    exact ⟨OrderedMapping.iterKeys_setItem_of_not_mem m k v hk,
      OrderedMapping.iterKeys_setItem_of_not_mem m k v hk⟩

theorem orderedMapping_insertion_order_witness :
    ((([("a", 1), ("b", 1), ("c", 1)] : List (String × Nat)).map Prod.fst).Nodup) ∧
    ((OrderedMapping.empty Nat "OrderedMapping").insertAll
      [("a", 1), ("b", 1), ("c", 1)]).iterKeys = ["a", "b", "c"] :=
  ⟨by decide, (orderedMapping_insertion_order [("a", 1), ("b", 1), ("c", 1)] (by decide)).1⟩

/-- Claim C2: for an instance containing key `k`, deleting `k` (either
idiom yields the same result) and then re-setting `k` to any value gives an
iteration order that is the old order with `k` removed, followed by `k` at
the end. -/
theorem orderedMapping_delete_reinsert {α : Type} (m m' : OrderedMapping α) (k : String)
    (v : α) (hnd : m.iterKeys.Nodup) (hdel : m.delItem k = .ok m') :
    m.delAttr k = .ok m' ∧
    (m'.setItem k v).iterKeys = m.iterKeys.erase k ++ [k] ∧
    (m'.setAttr k v).iterKeys = m.iterKeys.erase k ++ [k] := by
  by_cases hk : m.hasKey k
  · rw [OrderedMapping.delItem, if_pos hk] at hdel
    injection hdel with hdc
    subst hdc
    have hfree : (m.delCore k).hasKey k = false := OrderedMapping.hasKey_delCore_self m k
    have hkeys : ((m.delCore k).setItem k v).iterKeys = m.iterKeys.erase k ++ [k] := by
      rw [OrderedMapping.iterKeys_setItem_of_not_mem _ k v hfree,
        OrderedMapping.iterKeys_delCore_of_nodup m k hnd]
    exact ⟨by rw [OrderedMapping.delAttr, if_pos hk], hkeys, hkeys⟩
  · rw [OrderedMapping.delItem, if_neg hk] at hdel
    cases hdel

theorem orderedMapping_delete_reinsert_witness :
    ((OrderedMapping.mk "OrderedMapping" [("a", 1), ("b", 2), ("c", 3)]).iterKeys.Nodup ∧
      (OrderedMapping.mk "OrderedMapping"
        [("a", (1 : Nat)), ("b", 2), ("c", 3)]).delItem "b"
        = .ok (OrderedMapping.mk "OrderedMapping" [("a", 1), ("c", 3)])) ∧
    ((OrderedMapping.mk "OrderedMapping"
        [("a", (1 : Nat)), ("c", 3)]).setItem "b" 2).iterKeys
      = (OrderedMapping.mk "OrderedMapping"
        [("a", (1 : Nat)), ("b", 2), ("c", 3)]).iterKeys.erase "b" ++ ["b"] :=
  ⟨⟨by decide, by rfl⟩,
    (orderedMapping_delete_reinsert
      (OrderedMapping.mk "OrderedMapping" [("a", 1), ("b", 2), ("c", 3)])
      (OrderedMapping.mk "OrderedMapping" [("a", 1), ("c", 3)]) "b" 2
      (by decide) (by rfl)).2.1⟩

/-- Claim C3: setting an already-present key `k` to a new value (attribute
and subscript syntax are the same store operation) updates the stored value
but leaves the whole iteration order unchanged, and leaves every other
key's stored value unchanged. -/
theorem orderedMapping_overwrite_in_place {α : Type} (m : OrderedMapping α) (k : String)
    (v : α) (hk : m.hasKey k = true) :
    m.setAttr k v = m.setItem k v ∧
    (m.setItem k v).iterKeys = m.iterKeys ∧
    (m.setItem k v).lookupCore k = some v ∧
    ∀ k', k' ≠ k → (m.setItem k v).lookupCore k' = m.lookupCore k' := by
  refine ⟨rfl, OrderedMapping.iterKeys_setItem_of_mem m k v hk, ?_, ?_⟩
  · rw [OrderedMapping.lookupCore_setItem, if_pos rfl]
  · intro k' h
    rw [OrderedMapping.lookupCore_setItem, if_neg h]

theorem orderedMapping_overwrite_in_place_witness :
    (OrderedMapping.mk "OrderedMapping" [("a", (1 : Nat)), ("b", 2), ("c", 3)]).hasKey "b"
      = true ∧
    ((OrderedMapping.mk "OrderedMapping"
        [("a", (1 : Nat)), ("b", 2), ("c", 3)]).setItem "b" 99).iterKeys
      = (OrderedMapping.mk "OrderedMapping" [("a", (1 : Nat)), ("b", 2), ("c", 3)]).iterKeys :=
  ⟨by decide,
    (orderedMapping_overwrite_in_place
      (OrderedMapping.mk "OrderedMapping" [("a", 1), ("b", 2), ("c", 3)]) "b" 99
      (by decide)).2.1⟩

/-- Claim C4: two instances are equal exactly when they have the same
concrete runtime type, the same keys in the same order, and the same value
for each key (so a subclass instance, a reordering, or `None` compare
unequal), and inequality is the logical negation of equality. -/
theorem orderedMapping_eq_characterization {α : Type} [DecidableEq α]
    (a b : OrderedMapping α) (ha : a.iterKeys.Nodup) (hb : b.iterKeys.Nodup) :
    (a.beq b = true ↔
      a.tname = b.tname ∧ a.iterKeys = b.iterKeys ∧ ∀ k, a.lookupCore k = b.lookupCore k) ∧
    a.beqOpt none = false ∧
    (∀ c : Option (OrderedMapping α), a.bneOpt c = !(a.beqOpt c)) := by
  refine ⟨⟨?_, ?_⟩, rfl, fun c => rfl⟩
  · intro h
    rw [OrderedMapping.beq, Bool.and_eq_true, decide_eq_true_iff, decide_eq_true_iff] at h
    exact ⟨h.1, by rw [OrderedMapping.iterKeys, OrderedMapping.iterKeys, h.2],
      fun k => by rw [OrderedMapping.lookupCore, OrderedMapping.lookupCore, h.2]⟩
  · intro h
    have hent : a.entries = b.entries := by
      apply assoc_ext a.entries b.entries ha hb h.2.1
      intro k
      apply find?_key_eq_of_lookup_eq
      exact h.2.2 k
    rw [OrderedMapping.beq, Bool.and_eq_true, decide_eq_true_iff, decide_eq_true_iff]
    exact ⟨h.1, hent⟩

theorem orderedMapping_eq_characterization_witness :
    ((OrderedMapping.mk "OrderedMapping" [("a", (1 : Nat))]).iterKeys.Nodup ∧
      (OrderedMapping.mk "OrderedMapping" [("a", (1 : Nat))]).iterKeys.Nodup) ∧
    (OrderedMapping.mk "OrderedMapping" [("a", (1 : Nat))]).beq
      (OrderedMapping.mk "OrderedMapping" [("a", 1)]) = true :=
  ⟨⟨by decide, by decide⟩,
    ((orderedMapping_eq_characterization
      (OrderedMapping.mk "OrderedMapping" [("a", 1)])
      (OrderedMapping.mk "OrderedMapping" [("a", 1)])
      (by decide) (by decide)).1).mpr ⟨rfl, rfl, fun k => rfl⟩⟩

/-- Claim C5: a missing key surfaces as an error through both access
idioms — attribute-style get and delete raise the attribute-not-found
manifestation, subscript-style get and delete the key-not-found
manifestation — never a silent default; a present key is returned, or
removed, without error. -/
theorem orderedMapping_missing_key_error {α : Type} (m : OrderedMapping α) (k : String) :
    (m.lookupCore k = none →
      m.getAttr k = .error .attributeError ∧ m.getItem k = .error .keyError ∧
      m.delAttr k = .error .attributeError ∧ m.delItem k = .error .keyError) ∧
    (∀ v, m.lookupCore k = some v →
      m.getAttr k = .ok v ∧ m.getItem k = .ok v ∧
      m.delAttr k = .ok (m.delCore k) ∧ m.delItem k = .ok (m.delCore k)) := by
  constructor
  · intro h
    have hk : m.hasKey k = false := (OrderedMapping.lookupCore_eq_none m k).mp h
    refine ⟨?_, ?_, ?_, ?_⟩
    · rw [OrderedMapping.getAttr, h]
    · rw [OrderedMapping.getItem, h]
    · rw [OrderedMapping.delAttr, if_neg (by rw [hk]; exact Bool.false_ne_true)]
    · rw [OrderedMapping.delItem, if_neg (by rw [hk]; exact Bool.false_ne_true)]
  · intro v h
    have hk : m.hasKey k = true := OrderedMapping.hasKey_of_lookup_some m k v h
    refine ⟨?_, ?_, ?_, ?_⟩
    · rw [OrderedMapping.getAttr, h]
    · rw [OrderedMapping.getItem, h]
    · rw [OrderedMapping.delAttr, if_pos hk]
    · rw [OrderedMapping.delItem, if_pos hk]

theorem orderedMapping_missing_key_error_witness :
    ((OrderedMapping.mk "OrderedMapping" [("a", (1 : Nat))]).lookupCore "b" = none ∧
      (OrderedMapping.mk "OrderedMapping" [("a", (1 : Nat))]).getItem "b"
        = .error .keyError) ∧
    ((OrderedMapping.mk "OrderedMapping" [("a", (1 : Nat))]).lookupCore "a" = some 1 ∧
      (OrderedMapping.mk "OrderedMapping" [("a", (1 : Nat))]).getItem "a" = .ok 1) :=
  ⟨⟨by rfl,
    ((orderedMapping_missing_key_error
      (OrderedMapping.mk "OrderedMapping" [("a", 1)]) "b").1 (by rfl)).2.1⟩,
   ⟨by rfl,
    ((orderedMapping_missing_key_error
      (OrderedMapping.mk "OrderedMapping" [("a", 1)]) "a").2 1 (by rfl)).2.1⟩⟩

/-- Claim C6: construction from two bare positional scalar arguments fails
with the assertion-class InvalidConstruction error, construction from a
single non-mapping sequence fails with a type error, the two error
conditions are distinct, and in both cases an error value (not a partial
object) is the immediate result. -/
theorem orderedMapping_init_validation {α : Type} (a b : String) (l : List String)
    (kwargs : List (String × α)) :
    OrderedMapping.init "OrderedMapping" [InitArg.scalarArg a, InitArg.scalarArg b] kwargs
      = .error .assertionError ∧
    OrderedMapping.init "OrderedMapping" ([InitArg.seqArg l] : List (InitArg α)) kwargs
      = .error .typeError ∧
    PkError.assertionError ≠ PkError.typeError :=
  ⟨rfl, rfl, by decide⟩

theorem orderedMapping_init_validation_witness :
    OrderedMapping.init "OrderedMapping" [InitArg.scalarArg "a", InitArg.scalarArg "1"]
      ([] : List (String × Nat)) = .error .assertionError ∧
    OrderedMapping.init "OrderedMapping" ([InitArg.seqArg ["b"]] : List (InitArg Nat)) []
      = .error .typeError :=
  ⟨(orderedMapping_init_validation "a" "1" ["b"] []).1,
   (orderedMapping_init_validation "a" "1" ["b"] []).2.1⟩

/-- Claim C7: merging a source (whose keys are distinct, as they are for a
mapping) into a target sets every source key to its source value in source
order: the type is unchanged, the resulting order is the target's order
followed by the genuinely new source keys in source order, every source key
ends with its source value, and every other key keeps its target value. -/
theorem mapping_merge_spec {α : Type} (t : OrderedMapping α) (src : List (String × α))
    (hs : (src.map Prod.fst).Nodup) :
    (mapping_merge t src).tname = t.tname ∧
    (mapping_merge t src).iterKeys
      = t.iterKeys ++ (src.map Prod.fst).filter (fun k => !(t.hasKey k)) ∧
    (∀ k v, (k, v) ∈ src → (mapping_merge t src).lookupCore k = some v) ∧
    (∀ k, k ∉ src.map Prod.fst → (mapping_merge t src).lookupCore k = t.lookupCore k) :=
  ⟨OrderedMapping.tname_insertAll src t,
   iterKeys_mapping_merge src t hs,
   fun k v hm => lookupCore_mapping_merge_mem src t k v hs hm,
   fun k hk => lookupCore_mapping_merge_not_mem src t k hk⟩

theorem mapping_merge_spec_witness :
    ((([("b", 3), ("z", 4)] : List (String × Nat)).map Prod.fst).Nodup) ∧
    (mapping_merge (OrderedMapping.mk "OrderedMapping" [("a", (1 : Nat)), ("b", 2)])
        [("b", 3), ("z", 4)]).iterKeys
      = (OrderedMapping.mk "OrderedMapping" [("a", (1 : Nat)), ("b", 2)]).iterKeys
        ++ (([("b", 3), ("z", 4)] : List (String × Nat)).map Prod.fst).filter
          (fun k => !((OrderedMapping.mk "OrderedMapping"
            [("a", (1 : Nat)), ("b", 2)]).hasKey k)) :=
  ⟨by decide,
    (mapping_merge_spec (OrderedMapping.mk "OrderedMapping" [("a", 1), ("b", 2)])
      [("b", 3), ("z", 4)] (by decide)).2.1⟩

/-- Claim C8: merging an empty source — an empty plain mapping or an empty
OrderedMapping — into any target returns the target with its keys, values
and order completely unchanged. -/
theorem mapping_merge_empty_source {α : Type} (t : OrderedMapping α) (tn : String) :
    mapping_merge t [] = t ∧ mapping_merge t (OrderedMapping.empty α tn).entries = t :=
  ⟨rfl, rfl⟩

/-- Claim C9: the string representation is the deterministic
`TypeName(key1=value1, ...)` form with the pairs rendered in iteration
order and separated by comma-space with no trailing comma; an empty
instance renders as `OrderedMapping()` and a one-entry instance as
`OrderedMapping(a=1)`. -/
theorem orderedMapping_repr_deterministic (l : List (String × Nat))
    (h : (l.map Prod.fst).Nodup) :
    ((OrderedMapping.empty Nat "OrderedMapping").insertAll l).reprStr
      = "OrderedMapping" ++ "(" ++ String.intercalate ", "
          (l.map (fun e => e.1 ++ "=" ++ toString e.2)) ++ ")" ∧
    (OrderedMapping.empty Nat "OrderedMapping").reprStr = "OrderedMapping()" ∧
    ((OrderedMapping.empty Nat "OrderedMapping").setAttr "a" 1).reprStr
      = "OrderedMapping(a=1)" ∧
    ((OrderedMapping.empty Nat "OrderedMapping").insertAll
        [("a", 1), ("b", 2), ("c", 3)]).reprStr = "OrderedMapping(a=1, b=2, c=3)" := by
  refine ⟨?_, by decide, by decide, by decide⟩
  have he : ((OrderedMapping.empty Nat "OrderedMapping").insertAll l).entries = l := by
    rw [OrderedMapping.entries_insertAll_fresh l (OrderedMapping.empty Nat "OrderedMapping") h
      (fun p _ => rfl)]
    rfl
  have ht : ((OrderedMapping.empty Nat "OrderedMapping").insertAll l).tname
      = "OrderedMapping" := OrderedMapping.tname_insertAll l _
  simp only [OrderedMapping.reprStr, he, ht]

theorem orderedMapping_repr_deterministic_witness :
    ((([("x", 7), ("y", 8)] : List (String × Nat)).map Prod.fst).Nodup) ∧
    ((OrderedMapping.empty Nat "OrderedMapping").insertAll [("x", 7), ("y", 8)]).reprStr
      = "OrderedMapping" ++ "(" ++ String.intercalate ", "
          (([("x", 7), ("y", 8)] : List (String × Nat)).map
            (fun e => e.1 ++ "=" ++ toString e.2)) ++ ")" :=
  ⟨by decide, (orderedMapping_repr_deterministic [("x", 7), ("y", 8)] (by decide)).1⟩

/-- Claim C10: `read_all` errors whenever the user manifest's version
differs from the container manifest's version, and a merged result is
produced only when the two versions are equal — in which case it is the
container data updated by the user data. -/
theorem read_all_version_guard (u c : Manifest) :
    (u.version ≠ c.version → read_all u c
      = .error ("(user.version) " ++ u.version ++ " != " ++ c.version
        ++ " (container.version)")) ∧
    (∀ r, read_all u c = .ok r →
      u.version = c.version ∧ r = Manifest.mk c.version (dictUpdate c.codes u.codes)) := by
  constructor
  · intro h
    rw [read_all, if_neg h]
  · intro r h
    by_cases hv : u.version = c.version
    · rw [read_all, if_pos hv] at h
      injection h with h1
      exact ⟨hv, h1.symm⟩
    · rw [read_all, if_neg hv] at h
      cases h

theorem read_all_version_guard_witness :
    (("20170101.000000" : String) ≠ "20180101.000000" ∧
      read_all (Manifest.mk "20170101.000000" [("codes", "x")])
        (Manifest.mk "20180101.000000" [])
        = .error ("(user.version) " ++ "20170101.000000" ++ " != " ++ "20180101.000000"
          ++ " (container.version)")) ∧
    (read_all (Manifest.mk "v1" [("a", "1")]) (Manifest.mk "v1" [("b", "2")])
        = .ok (Manifest.mk "v1" [("b", "2"), ("a", "1")]) ∧
      ("v1" : String) = "v1") :=
  ⟨⟨by decide,
    (read_all_version_guard (Manifest.mk "20170101.000000" [("codes", "x")])
      (Manifest.mk "20180101.000000" [])).1 (by decide)⟩,
   ⟨by rfl,
    ((read_all_version_guard (Manifest.mk "v1" [("a", "1")])
      (Manifest.mk "v1" [("b", "2")])).2 (Manifest.mk "v1" [("b", "2"), ("a", "1")])
      (by rfl)).1⟩⟩
